import Mathlib

/-!
Verification of the core pipeline of `src/Spotify-Alter-Ego.py`
(repository `reynolds7182/spotify-avatar`).

Python strings are embedded as `List Char`.  Each definition below carries a
comment naming the source line(s) it translates.
-/

/-- Python's whitespace class for `str.strip` and the regex class `\s`
(ASCII part: space, tab, newline, carriage return, vertical tab, form feed). -/
def pyIsSpace (c : Char) : Bool :=
  c = ' ' || c = '\t' || c = '\n' || c = '\r' || c = '\x0b' || c = '\x0c'

/-- Python `str.strip()`: drop leading and trailing whitespace. -/
def pyStrip (s : List Char) : List Char :=
  ((s.dropWhile pyIsSpace).reverse.dropWhile pyIsSpace).reverse

/-- Case-insensitive character comparison, as performed by `re.IGNORECASE`
on the ASCII marker literals of `parse_ollama_response`. -/
def ciEq (a b : Char) : Bool := a.toLower == b.toLower

/-- `ciPrefix pat s`: `pat` matches case-insensitively at the start of `s`. -/
def ciPrefix : List Char → List Char → Bool
  | [], _ => true
  | _ :: _, [] => false
  | p :: ps, c :: cs => ciEq p c && ciPrefix ps cs

/-- Index of the leftmost case-insensitive occurrence of `pat` in `s`
(the start position chosen by `re.search` for a pattern that begins with the
literal `pat`). -/
def findCI (pat : List Char) : List Char → Option Nat
  | [] => if ciPrefix pat [] then some 0 else none
  | c :: t => if ciPrefix pat (c :: t) then some 0 else (findCI pat t).map (· + 1)

/-- The literal `### DESCRIPTION` of the regex at line 173 of the source. -/
def descMarker : List Char :=
  ['#', '#', '#', ' ', 'D', 'E', 'S', 'C', 'R', 'I', 'P', 'T', 'I', 'O', 'N']

/-- The literal `### IMAGE` of the regexes at lines 173-174 of the source. -/
def imageMarker : List Char :=
  ['#', '#', '#', ' ', 'I', 'M', 'A', 'G', 'E']

/-- `s[a:b]` on character lists. -/
def sliceStr (s : List Char) (a b : Nat) : List Char := (s.drop a).take (b - a)

/-- The description field of `parse_ollama_response` (source lines 171-176):

`re.search(r"### DESCRIPTION\s*(.+?)\s*### IMAGE", response, re.DOTALL | re.IGNORECASE)`
followed by `.group(1).strip()`, and `""` when there is no match.

The Python regex behaves as follows (leftmost match, greedy `\s*`, lazy
`(.+?)`, `.` matching newlines under `DOTALL`): the match starts at the first
case-insensitive occurrence `i` of `### DESCRIPTION`; with `e = i + 15` and
`ws` the length of the whitespace run starting at `e`, the engine first keeps
`\s*` maximal, so the lazy group ends just before the first occurrence of
`### IMAGE` at an index `≥ e + ws + 1`; only when no such occurrence exists
does it backtrack `\s*`, which can only reach an occurrence sitting at exactly
`e + ws` and needs `ws ≥ 1` so that the group is non-empty (the group then
holds a single whitespace character).  In every successful case the stripped
group equals the stripped text strictly between the two matched markers. -/
def parseDesc (s : List Char) : List Char :=
  match findCI descMarker s with
  | none => []
  | some i =>
    let e := i + descMarker.length
    let ws := ((s.drop e).takeWhile pyIsSpace).length
    let a := e + ws
    match findCI imageMarker (s.drop (a + 1)) with
    | some d => pyStrip (sliceStr s e (a + 1 + d))
    | none =>
      if 0 < ws ∧ ciPrefix imageMarker (s.drop a) = true then
        pyStrip (sliceStr s e a)
      else []

/-- The image field of `parse_ollama_response` (source lines 172-178):

`re.search(r"### IMAGE\s*(.+)", response, re.DOTALL | re.IGNORECASE)` followed
by `.group(1).strip()`, and `""` when there is no match.  The match starts at
the first case-insensitive occurrence of `### IMAGE`; the group `(.+)` runs to
the end of the input and must be non-empty (if only whitespace follows, `\s*`
backtracks and the group holds whitespace, which strips to `""`); the stripped
group equals the stripped text after the marker. -/
def parseImage (s : List Char) : List Char :=
  match findCI imageMarker s with
  | none => []
  | some j =>
    let t := s.drop (j + imageMarker.length)
    if t = [] then [] else pyStrip t

/-- `parse_ollama_response` (source lines 170-179): returns the pair
`(description, image_prompt)`. -/
def parse_ollama_response (s : List Char) : List Char × List Char :=
  (parseDesc s, parseImage s)

-- sanity checks of the embedding on concrete outputs
example :
    parse_ollama_response
      ('#' :: "## DESCRIPTION\nA moody vampire\n### IMAGE\nmisty castle".data) =
      ("A moody vampire".data, "misty castle".data) := by decide

example : parse_ollama_response "no markers here".data = ([], []) := by decide

/-! ## Username generator (`generate_funny_username`, source lines 205-229) -/

/-- Python `str.lower()` applied character-wise (ASCII descriptions). -/
def lowerStr (s : List Char) : List Char := s.map Char.toLower

/-- Python's substring test `pat in s` (exact, case-sensitive). -/
def strInfix (pat : List Char) : List Char → Bool
  | [] => pat.isPrefixOf ([] : List Char)
  | c :: t => pat.isPrefixOf (c :: t) || strInfix pat t

/-- One entry of the `genre_vocab` dict (source lines 207-214). -/
structure GenreBucket where
  keywords : List (List Char)
  adjectives : List (List Char)
  nouns : List (List Char)
deriving DecidableEq

/-- The `genre_vocab` dict, in its Python insertion order
(pop, emo, grunge, hyperpop, ethereal, darkwave; source lines 207-214). -/
def genre_vocab : List GenreBucket :=
  [ { keywords := ["pop".data, "bubblegum".data],
      adjectives := ["pop".data, "shiny".data],
      nouns := ["princess".data, "idol".data] },
    { keywords := ["emo".data, "gloomy".data],
      adjectives := ["sad".data, "moody".data],
      nouns := ["ghost".data, "vamp".data] },
    { keywords := ["grunge".data, "punk".data],
      adjectives := ["gritty".data, "fuzzy".data],
      nouns := ["rat".data, "gremlin".data] },
    { keywords := ["hyperpop".data],
      adjectives := ["glitchy".data],
      nouns := ["bot".data, "sprite".data] },
    { keywords := ["dreamy".data],
      adjectives := ["ethereal".data],
      nouns := ["angel".data] },
    { keywords := ["goth".data, "vampire".data],
      adjectives := ["dark".data],
      nouns := ["demon".data, "fang".data] } ]

/-- `fallback_adjectives` (source line 215). -/
def fallback_adjectives : List (List Char) := ["weird".data, "alt".data]

/-- `fallback_nouns` (source line 216). -/
def fallback_nouns : List (List Char) := ["bot".data, "icon".data]

/-- `any(word in description for word in genre['keywords'])` (source line 218),
applied to the lowercased description. -/
def matchesBucket (g : GenreBucket) (descLower : List Char) : Bool :=
  g.keywords.any (fun w => strInfix w descLower)

/-- The `for genre in genre_vocab.values(): ... break` loop (source lines
217-221): the first bucket, in dict order, one of whose keywords occurs in the
lowercased description. -/
def pickBucket (descLower : List Char) : Option GenreBucket :=
  genre_vocab.find? (fun g => matchesBucket g descLower)

/-- Adjective/noun vocabulary used by `generate_funny_username`: the matched
bucket's sets, or the fallback sets (source lines 217-224). -/
def chooseVocab (description : List Char) : List (List Char) × List (List Char) :=
  match pickBucket (lowerStr description) with
  | some g => (g.adjectives, g.nouns)
  | none => (fallback_adjectives, fallback_nouns)

/-- `random.choice(...)` for the adjective, modelled by an arbitrary index
`ai` taken modulo the list length. -/
def chosenAdj (description : List Char) (ai : Nat) : List Char :=
  ((chooseVocab description).1).getD (ai % ((chooseVocab description).1).length) []

/-- `random.choice(...)` for the noun, modelled by an arbitrary index `ni`
taken modulo the list length. -/
def chosenNoun (description : List Char) (ni : Nat) : List Char :=
  ((chooseVocab description).2).getD (ni % ((chooseVocab description).2).length) []

/-- Decimal rendering of `random.randint(0, 99)` as interpolated by the
f-string. -/
def natChars (n : Nat) : List Char := (Nat.repr n).data

/-- The `options` list (source line 225):
`[f"{adj}{noun}", f"{adj}_{noun}", f"{adj}{noun}{random.randint(0, 99)}"]`. -/
def username_options (adj noun : List Char) (n : Nat) : List (List Char) :=
  [adj ++ noun, adj ++ '_' :: noun, adj ++ noun ++ natChars n]

/-- The length filter `12 <= len(option) <= 16` (source line 227). -/
def lenOk (o : List Char) : Bool := decide (12 ≤ o.length) && decide (o.length ≤ 16)

/-- `generate_funny_username` (source lines 205-229), with the three calls to
the random source replaced by explicit parameters: adjective index `ai`, noun
index `ni`, and the integer `n` drawn by `random.randint(0, 99)`. -/
def generate_funny_username (description : List Char) (ai ni n : Nat) : List Char :=
  let adj := chosenAdj description ai
  let noun := chosenNoun description ni
  match (username_options adj noun n).find? lenOk with
  | some o => o
  | none => (adj ++ noun).take 16

example : chooseVocab "A moody vampire".data =
    (["dark".data], ["demon".data, "fang".data]) := by decide
example : chooseVocab "GOTH".data =
    (["dark".data], ["demon".data, "fang".data]) := by decide
example : generate_funny_username "".data 0 0 0 = "weirdbot".data := by decide
example : generate_funny_username "dreamy".data 0 0 0 = "etherealangel".data := by decide

/-! ## Track normalizers (source lines 109-157) -/

/-- One element of a raw `track['artists']` list. -/
structure RawArtist where
  name : List Char
deriving DecidableEq

/-- The raw `track['album']` object: its name and the list of image URLs
(`images[i]['url']`). -/
structure RawAlbum where
  name : List Char
  images : List (List Char)
deriving DecidableEq

/-- A raw track entry as consumed by both normalizers. -/
structure RawTrack where
  id : List Char
  name : List Char
  artists : List RawArtist
  album : RawAlbum
  popularity : Int
  duration_ms : Int
  external_urls : List Char
  preview_url : Option (List Char)
deriving DecidableEq

/-- A raw recently-played entry: a track plus its `played_at` timestamp. -/
structure RawPlayItem where
  track : RawTrack
  played_at : List Char
deriving DecidableEq

/-- A normalized track record.  The Python dicts built at source lines
115-126 and 141-153 are modelled with `album_cover` as an `Option` (the key
is set only when `track['album']['images']` is non-empty) and `played_at` as
an `Option` (the key exists only for recently-played records). -/
structure TrackInfo where
  id : List Char
  name : List Char
  artists : List (List Char)
  album : List Char
  popularity : Int
  duration_ms : Int
  external_urls : List Char
  preview_url : Option (List Char)
  album_cover : Option (List Char)
  played_at : Option (List Char)
deriving DecidableEq

/-- The record built for one top track (source lines 115-127). -/
def mkTopInfo (t : RawTrack) : TrackInfo :=
  { id := t.id
    name := t.name
    artists := t.artists.map RawArtist.name
    album := t.album.name
    popularity := t.popularity
    duration_ms := t.duration_ms
    external_urls := t.external_urls
    preview_url := t.preview_url
    album_cover := t.album.images.head?
    played_at := none }

/-- The record built for one recently-played item (source lines 141-153):
the same fields plus `played_at`. -/
def mkRecentInfo (x : RawPlayItem) : TrackInfo :=
  { mkTopInfo x.track with played_at := some x.played_at }

/-- `get_top_tracks_data` (source lines 109-128) restricted to its pure part:
the loop `for track in top_tracks['items']` builds one record per entry, with
no local truncation (the bound of 10 lives in the `limit=10` request
parameter of line 112, outside this function's loop). -/
def get_top_tracks_data (items : List RawTrack) : List TrackInfo :=
  items.map mkTopInfo

/-- The dedup-and-truncate loop of `get_recent_tracks_data` (source lines
134-157): `seen` models the `seen_tracks` set, `count` the current
`len(unique_tracks)`; an entry whose id was seen is skipped, otherwise it is
emitted, and the loop breaks once `len(unique_tracks) >= 10` after an
append. -/
def recentGo : List RawPlayItem → List (List Char) → Nat → List TrackInfo
  | [], _, _ => []
  | x :: rest, seen, count =>
    if x.track.id ∈ seen then recentGo rest seen count
    else if count + 1 ≥ 10 then [mkRecentInfo x]
    else mkRecentInfo x :: recentGo rest (x.track.id :: seen) (count + 1)

/-- `get_recent_tracks_data` (source lines 130-157) restricted to its pure
part: dedup by track id (keeping first occurrences) and stop at 10 records. -/
def get_recent_tracks_data (items : List RawPlayItem) : List TrackInfo :=
  recentGo items [] 0

/-- Specification-side description of the dedup loop: the sublist of first
occurrences (by track id) of the input, those whose id is not in `seen`. -/
def firstOccs : List RawPlayItem → List (List Char) → List RawPlayItem
  | [], _ => []
  | x :: rest, seen =>
    if x.track.id ∈ seen then firstOccs rest seen
    else x :: firstOccs rest (x.track.id :: seen)

/-! ## Prompt builder and image-prompt formatter (source lines 181-194) -/

/-- `sep.join(xs)`. -/
def joinSep (sep : List Char) : List (List Char) → List Char
  | [] => []
  | [x] => x
  | x :: y :: ys => x ++ sep ++ joinSep sep (y :: ys)

/-- One rendered line `f"- '{t['name']}' by {', '.join(t['artists'])}"`
(source lines 184-185). -/
def renderTrackLine (t : TrackInfo) : List Char :=
  "- '".data ++ t.name ++ "' by ".data ++ joinSep ", ".data t.artists

/-- Fuel-indexed core of Python `str.replace(pat, new)`: scan left to right,
replace each (non-overlapping) occurrence, never rescan substituted text.
The fuel only serves termination; `replaceAll` supplies `s.length`, which is
always sufficient for non-empty `pat`. -/
def replaceAllGo (pat new : List Char) : Nat → List Char → List Char
  | 0, s => s
  | _ + 1, [] => []
  | fuel + 1, c :: rest =>
    if pat.isPrefixOf (c :: rest) then
      new ++ replaceAllGo pat new fuel ((c :: rest).drop pat.length)
    else c :: replaceAllGo pat new fuel rest

/-- Python `s.replace(pat, new)` for non-empty `pat` (the only way the source
uses it: the two placeholder literals at lines 186-187). -/
def replaceAll (pat new s : List Char) : List Char :=
  replaceAllGo pat new s.length s

/-- The placeholder `{{TOP_TRACKS}}` (source line 186). -/
def topToken : List Char := "\x7b\x7bTOP_TRACKS\x7d\x7d".data

/-- The placeholder `{{RECENT_TRACKS}}` (source line 187). -/
def recentToken : List Char := "\x7b\x7bRECENT_TRACKS\x7d\x7d".data

/-- `build_prompt` (source lines 181-188) with the template-file contents as
an explicit input: render the two track lists and substitute the two
placeholders, `{{TOP_TRACKS}}` first. -/
def build_prompt (template : List Char) (top recent : List TrackInfo) : List Char :=
  let top_str := joinSep ['\n'] (top.map renderTrackLine)
  let recent_str := joinSep ['\n'] (recent.map renderTrackLine)
  replaceAll recentToken recent_str (replaceAll topToken top_str template)

/-- The constant style preamble of `format_image_prompt` (source lines
190-194), trailing space included. -/
def stylePreamble : List Char :=
  ("Pixar-style 3D character portrait. Bust shot, centered face, " ++
   "expressive cartoon features, big eyes, cinematic lighting. ").data

/-- `format_image_prompt` (source lines 190-194): plain concatenation of the
constant preamble and the parsed image directive. -/
def format_image_prompt (image_prompt : List Char) : List Char :=
  stylePreamble ++ image_prompt

/-- A concrete track used in scenario checks: name `A`, one artist `X`. -/
def sampleRawTrack : RawTrack :=
  { id := "t1".data
    name := "A".data
    artists := [{ name := "X".data }]
    album := { name := "al".data, images := [] }
    popularity := 1
    duration_ms := 1000
    external_urls := "u".data
    preview_url := none }

/-- The normalized form of `sampleRawTrack`. -/
def sampleTrackAX : TrackInfo := mkTopInfo sampleRawTrack

example :
    build_prompt "TOP:\x7b\x7bTOP_TRACKS\x7d\x7d RECENT:\x7b\x7bRECENT_TRACKS\x7d\x7d".data
      [sampleTrackAX] [] = "TOP:- 'A' by X RECENT:".data := by decide

/-! ## Lemmas about case-insensitive search -/

theorem ciPrefix_nil_right (p : List Char) (h : p ≠ []) : ciPrefix p [] = false := by
  cases p with
  | nil => exact absurd rfl h
  | cons a t => rfl

theorem ciPrefix_append_of {p w : List Char} (z : List Char)
    (h : ciPrefix p w = true) : ciPrefix p (w ++ z) = true := by
  induction p generalizing w with
  | nil => rfl
  | cons a t ih =>
    cases w with
    | nil => simp [ciPrefix] at h
    | cons c cs =>
      simp only [ciPrefix, Bool.and_eq_true] at h ⊢
      exact ⟨h.1, ih h.2⟩

theorem ciPrefix_refl (p : List Char) : ciPrefix p p = true := by
  induction p with
  | nil => rfl
  | cons a t ih => simp [ciPrefix, ciEq, ih]

theorem ciPrefix_self_append (p z : List Char) : ciPrefix p (p ++ z) = true :=
  ciPrefix_append_of z (ciPrefix_refl p)

/-- A character `b` that matches (case-insensitively) no character of `pat`
acts as a barrier: `pat` matches at the start of `w ++ b :: z` iff it matches
at the start of `w`. -/
theorem ciPrefix_append_cons_eq {pat : List Char} {b : Char}
    (hb : pat.all (fun c => !(ciEq c b)) = true) (w z : List Char) :
    ciPrefix pat (w ++ b :: z) = ciPrefix pat w := by
  induction pat generalizing w with
  | nil => rfl
  | cons p ps ih =>
    simp only [List.all_cons, Bool.and_eq_true, Bool.not_eq_true'] at hb
    cases w with
    | nil => simp [ciPrefix, hb.1]
    | cons c cs =>
      show (ciEq p c && ciPrefix ps (cs ++ b :: z)) = (ciEq p c && ciPrefix ps cs)
      rw [ih hb.2]

theorem findCI_of_ciPrefix {pat s : List Char} (h : ciPrefix pat s = true) :
    findCI pat s = some 0 := by
  cases s with
  | nil => simp [findCI, h]
  | cons c t => simp [findCI, h]

theorem findCI_nil {pat : List Char} (h : pat ≠ []) : findCI pat [] = none := by
  simp [findCI, ciPrefix_nil_right pat h]

/-- Splitting a case-insensitive search at a barrier character: the first
occurrence of `pat` in `u ++ b :: v` is the first occurrence in `u` if there
is one, and otherwise the first occurrence in `v`, shifted past `u ++ [b]`. -/
theorem findCI_append_cons {pat : List Char} (hne : pat ≠ []) {b : Char}
    (hb : pat.all (fun c => !(ciEq c b)) = true) (u v : List Char) :
    findCI pat (u ++ b :: v) =
      match findCI pat u with
      | some i => some i
      | none => (findCI pat v).map (· + (u.length + 1)) := by
  induction u with
  | nil =>
    rw [findCI_nil hne]
    have hfalse : ciPrefix pat (b :: v) = false := by
      have := ciPrefix_append_cons_eq hb [] v
      rwa [List.nil_append, ciPrefix_nil_right pat hne] at this
    cases v with
    | nil => simp [findCI, hfalse, findCI_nil hne]
    | cons c cs =>
      simp only [List.nil_append, findCI, hfalse, Bool.false_eq_true, if_false,
        List.length_nil, Nat.zero_add]
  | cons c u' ih =>
    have hcond : ciPrefix pat (c :: (u' ++ b :: v)) = ciPrefix pat (c :: u') :=
      ciPrefix_append_cons_eq hb (c :: u') v
    have lhs_eq : findCI pat ((c :: u') ++ b :: v) =
        if ciPrefix pat (c :: u') = true then some 0
        else (findCI pat (u' ++ b :: v)).map (· + 1) := by
      show (if ciPrefix pat (c :: (u' ++ b :: v)) = true then some 0
        else (findCI pat (u' ++ b :: v)).map (· + 1)) = _
      rw [hcond]
    rw [lhs_eq]
    cases hp : ciPrefix pat (c :: u') with
    | true =>
      simp only [if_true]
      rw [show findCI pat (c :: u') = some 0 from findCI_of_ciPrefix hp]
    | false =>
      simp only [Bool.false_eq_true, if_false]
      rw [ih]
      have rhs_eq : findCI pat (c :: u') = (findCI pat u').map (· + 1) := by
        show (if ciPrefix pat (c :: u') = true then some 0
          else (findCI pat u').map (· + 1)) = _
        rw [hp]
        simp
      rw [rhs_eq]
      cases hfu : findCI pat u' with
      | some i => rfl
      | none =>
        cases hfv : findCI pat v with
        | none => rfl
        | some k =>
          show some (k + (u'.length + 1) + 1) = some (k + ((c :: u').length + 1))
          exact congrArg some (by simp only [List.length_cons]; omega)

theorem findCI_cons_none {pat : List Char} {c : Char} {t : List Char}
    (h : findCI pat (c :: t) = none) : findCI pat t = none := by
  by_cases hp : ciPrefix pat (c :: t) = true
  · simp [findCI, hp] at h
  · have hp' : ciPrefix pat (c :: t) = false := by
      cases hcp : ciPrefix pat (c :: t) with
      | false => rfl
      | true => exact absurd hcp hp
    simp only [findCI, hp', Bool.false_eq_true, if_false] at h
    cases hft : findCI pat t with
    | none => rfl
    | some k => rw [hft] at h; simp at h

theorem findCI_drop_none {pat s : List Char} (h : findCI pat s = none) (k : Nat) :
    findCI pat (s.drop k) = none := by
  induction k generalizing s with
  | zero => simpa using h
  | succ k ih =>
    cases s with
    | nil => simpa using h
    | cons c t => exact ih (findCI_cons_none h)

theorem findCI_ne_none_of_ciPrefix_drop {pat s : List Char} {k : Nat}
    (h : ciPrefix pat (s.drop k) = true) : findCI pat s ≠ none := by
  intro hnone
  have := findCI_drop_none hnone k
  rw [findCI_of_ciPrefix h] at this
  exact Option.noConfusion this

/-! ## Lemmas about whitespace runs and `pyStrip` -/

theorem takeWhile_append_all {p : Char → Bool} {u : List Char} (v : List Char)
    (h : u.all p = true) : (u ++ v).takeWhile p = u ++ v.takeWhile p := by
  induction u with
  | nil => rfl
  | cons c t ih =>
    simp only [List.all_cons, Bool.and_eq_true] at h
    simp only [List.cons_append, List.takeWhile_cons_of_pos h.1, ih h.2]

theorem takeWhile_append_of_dropWhile_ne {p : Char → Bool} {u : List Char}
    (v : List Char) (h : u.dropWhile p ≠ []) :
    (u ++ v).takeWhile p = u.takeWhile p := by
  induction u with
  | nil => exact absurd rfl h
  | cons c t ih =>
    cases hc : p c with
    | true =>
      rw [List.dropWhile_cons_of_pos hc] at h
      simp only [List.cons_append, List.takeWhile_cons_of_pos hc, ih h]
    | false =>
      have hc' : ¬ p c = true := by simp [hc]
      simp only [List.cons_append, List.takeWhile_cons_of_neg hc',
        List.takeWhile_cons_of_neg hc']

theorem dropWhile_append_of_dropWhile_ne {p : Char → Bool} {u : List Char}
    (v : List Char) (h : u.dropWhile p ≠ []) :
    (u ++ v).dropWhile p = u.dropWhile p ++ v := by
  induction u with
  | nil => exact absurd rfl h
  | cons c t ih =>
    cases hc : p c with
    | true =>
      rw [List.dropWhile_cons_of_pos hc] at h
      simp only [List.cons_append, List.dropWhile_cons_of_pos hc, ih h]
    | false =>
      have hc' : ¬ p c = true := by simp [hc]
      simp only [List.cons_append, List.dropWhile_cons_of_neg hc']

theorem dropWhile_append_all {p : Char → Bool} {u : List Char} (v : List Char)
    (h : u.all p = true) : (u ++ v).dropWhile p = v.dropWhile p := by
  induction u with
  | nil => rfl
  | cons c t ih =>
    simp only [List.all_cons, Bool.and_eq_true] at h
    simp only [List.cons_append, List.dropWhile_cons_of_pos h.1, ih h.2]

theorem pyStrip_cons_of_space {c : Char} (hc : pyIsSpace c = true) (s : List Char) :
    pyStrip (c :: s) = pyStrip s := by
  unfold pyStrip
  rw [List.dropWhile_cons_of_pos hc]

theorem pyStrip_concat_of_space {c : Char} (hc : pyIsSpace c = true) (s : List Char) :
    pyStrip (s ++ [c]) = pyStrip s := by
  unfold pyStrip
  by_cases h : s.dropWhile pyIsSpace = []
  · have hall : s.all pyIsSpace = true := by
      rw [List.all_eq_true]
      exact fun x hx => List.dropWhile_eq_nil_iff.mp h x hx
    rw [dropWhile_append_all [c] hall, h]
    simp [List.dropWhile, hc]
  · rw [dropWhile_append_of_dropWhile_ne [c] h]
    simp only [List.reverse_append, List.reverse_cons, List.reverse_nil,
      List.nil_append, List.singleton_append, List.dropWhile_cons_of_pos hc]

theorem pyStrip_all_space {s : List Char} (h : s.all pyIsSpace = true) :
    pyStrip s = [] := by
  unfold pyStrip
  have : s.dropWhile pyIsSpace = [] :=
    List.dropWhile_eq_nil_iff.mpr (fun x hx => List.all_eq_true.mp h x hx)
  rw [this]
  rfl

/-! ## Round-trip computation for `parse_ollama_response` -/

theorem reassoc_at_image (D I : List Char) :
    descMarker ++ '\n' :: (D ++ '\n' :: (imageMarker ++ '\n' :: I)) =
      (descMarker ++ '\n' :: (D ++ '\n' :: imageMarker)) ++ '\n' :: I := by
  simp [List.append_assoc]

theorem len_to_image_end (D : List Char) :
    (descMarker ++ '\n' :: (D ++ '\n' :: imageMarker)).length = D.length + 26 := by
  simp only [List.length_append, List.length_cons, descMarker, imageMarker,
    List.length_nil]
  omega

theorem slice_between (D X : List Char) :
    sliceStr (descMarker ++ '\n' :: (D ++ '\n' :: X)) descMarker.length
      (D.length + 17) = '\n' :: (D ++ ['\n']) := by
  unfold sliceStr
  rw [List.drop_left]
  have h17 : D.length + 17 - descMarker.length = D.length + 2 := by
    simp only [descMarker, List.length_cons, List.length_nil]
    omega
  rw [h17, show D.length + 2 = (D.length + 1) + 1 from rfl, List.take_succ_cons,
    List.take_append 1]
  simp

theorem pyStrip_nl_wrap (D : List Char) :
    pyStrip ('\n' :: (D ++ ['\n'])) = pyStrip D := by
  rw [pyStrip_cons_of_space (by decide), pyStrip_concat_of_space (by decide)]

theorem parseImage_roundtrip (D I : List Char)
    (hD : findCI imageMarker D = none) :
    parseImage (descMarker ++ '\n' :: (D ++ '\n' :: (imageMarker ++ '\n' :: I))) =
      pyStrip I := by
  have hne : imageMarker ≠ [] := by decide
  have hb : imageMarker.all (fun c => !(ciEq c '\n')) = true := by decide
  have h2 : findCI imageMarker (imageMarker ++ '\n' :: I) = some 0 :=
    findCI_of_ciPrefix (ciPrefix_self_append _ _)
  have h1 : findCI imageMarker (D ++ '\n' :: (imageMarker ++ '\n' :: I)) =
      some (D.length + 1) := by
    rw [findCI_append_cons hne hb, hD, h2]
    show some (0 + (D.length + 1)) = some (D.length + 1)
    rw [Nat.zero_add]
  have h0 : findCI imageMarker
      (descMarker ++ '\n' :: (D ++ '\n' :: (imageMarker ++ '\n' :: I))) =
      some (D.length + 17) := by
    rw [findCI_append_cons hne hb,
      show findCI imageMarker descMarker = none by decide, h1]
    show some (D.length + 1 + (descMarker.length + 1)) = some (D.length + 17)
    exact congrArg some (by
      have e2 : descMarker.length = 15 := rfl
      omega)
  have hlen : D.length + 17 + imageMarker.length =
      (descMarker ++ '\n' :: (D ++ '\n' :: imageMarker)).length := by
    have e1 : imageMarker.length = 9 := rfl
    have e2 : descMarker.length = 15 := rfl
    simp only [List.length_append, List.length_cons]
    omega
  have hdrop : (descMarker ++ '\n' :: (D ++ '\n' :: (imageMarker ++ '\n' :: I))).drop
      (D.length + 17 + imageMarker.length) = '\n' :: I := by
    rw [reassoc_at_image D I, hlen]
    exact List.drop_left _ _
  simp only [parseImage, h0]
  rw [hdrop, if_neg (List.cons_ne_nil '\n' I), pyStrip_cons_of_space (by decide)]

/-- Unfolding of `parseDesc` once the description marker's position and the
length of the following whitespace run are known. -/
theorem parseDesc_eq_of (s : List Char) (i wsv : Nat)
    (hf : findCI descMarker s = some i)
    (hw : ((s.drop (i + descMarker.length)).takeWhile pyIsSpace).length = wsv) :
    parseDesc s =
      match findCI imageMarker (s.drop (i + descMarker.length + wsv + 1)) with
      | some d =>
          pyStrip (sliceStr s (i + descMarker.length) (i + descMarker.length + wsv + 1 + d))
      | none =>
          if 0 < wsv ∧ ciPrefix imageMarker (s.drop (i + descMarker.length + wsv)) = true then
            pyStrip (sliceStr s (i + descMarker.length) (i + descMarker.length + wsv))
          else [] := by
  subst hw
  simp only [parseDesc, hf]

/-- The branch of `parseDesc` in which an image-marker occurrence exists
strictly past the whitespace run. -/
theorem parseDesc_eq_some (s : List Char) (i wsv d : Nat)
    (hf : findCI descMarker s = some i)
    (hw : ((s.drop (i + descMarker.length)).takeWhile pyIsSpace).length = wsv)
    (hs : findCI imageMarker (s.drop (i + descMarker.length + wsv + 1)) = some d) :
    parseDesc s =
      pyStrip (sliceStr s (i + descMarker.length) (i + descMarker.length + wsv + 1 + d)) := by
  rw [parseDesc_eq_of s i wsv hf hw, hs]

/-- The branch of `parseDesc` in which the image marker sits at the end of a
non-empty whitespace run (the regex backtracks `\s*` by one character). -/
theorem parseDesc_eq_none_pos (s : List Char) (i wsv : Nat)
    (hf : findCI descMarker s = some i)
    (hw : ((s.drop (i + descMarker.length)).takeWhile pyIsSpace).length = wsv)
    (hs : findCI imageMarker (s.drop (i + descMarker.length + wsv + 1)) = none)
    (hws : 0 < wsv)
    (hpre : ciPrefix imageMarker (s.drop (i + descMarker.length + wsv)) = true) :
    parseDesc s =
      pyStrip (sliceStr s (i + descMarker.length) (i + descMarker.length + wsv)) := by
  rw [parseDesc_eq_of s i wsv hf hw, hs]
  exact if_pos ⟨hws, hpre⟩

theorem drop_append_cons (u : List Char) (c : Char) (v : List Char) :
    (u ++ c :: v).drop (u.length + 1) = v := by
  rw [show u.length + 1 = (u ++ [c]).length by simp,
    show u ++ c :: v = (u ++ [c]) ++ v by simp, List.drop_left]

theorem parseDesc_roundtrip (D I : List Char)
    (hD : findCI imageMarker D = none) (hI : findCI imageMarker I = none) :
    parseDesc (descMarker ++ '\n' :: (D ++ '\n' :: (imageMarker ++ '\n' :: I))) =
      pyStrip D := by
  have hne : imageMarker ≠ [] := by decide
  have hb : imageMarker.all (fun c => !(ciEq c '\n')) = true := by decide
  have hnl : pyIsSpace '\n' = true := by decide
  have e2 : descMarker.length = 15 := rfl
  have hfind : findCI descMarker
      (descMarker ++ '\n' :: (D ++ '\n' :: (imageMarker ++ '\n' :: I))) = some 0 :=
    findCI_of_ciPrefix (ciPrefix_self_append _ _)
  by_cases hsp : D.dropWhile pyIsSpace = []
  · -- the description is entirely whitespace: the regex backtracks `\s*`
    have hall : D.all pyIsSpace = true :=
      List.all_eq_true.mpr (fun x hx => List.dropWhile_eq_nil_iff.mp hsp x hx)
    have hR2tw : (imageMarker ++ '\n' :: I).takeWhile pyIsSpace = [] := by
      rw [show imageMarker ++ '\n' :: I =
        '#' :: (['#', '#', ' ', 'I', 'M', 'A', 'G', 'E'] ++ '\n' :: I) from rfl]
      exact List.takeWhile_cons_of_neg (by decide)
    have hw : (((descMarker ++ '\n' :: (D ++ '\n' :: (imageMarker ++ '\n' :: I))).drop
        (0 + descMarker.length)).takeWhile pyIsSpace).length = D.length + 2 := by
      rw [Nat.zero_add, List.drop_left, List.takeWhile_cons_of_pos hnl,
        takeWhile_append_all _ hall, List.takeWhile_cons_of_pos hnl, hR2tw]
      simp
    have hdropA2 : (descMarker ++ '\n' :: (D ++ '\n' :: (imageMarker ++ '\n' :: I))).drop
        (0 + descMarker.length + (D.length + 2) + 1) =
        ['#', '#', ' ', 'I', 'M', 'A', 'G', 'E'] ++ '\n' :: I := by
      have hL3 : descMarker ++ '\n' :: (D ++ '\n' :: (imageMarker ++ '\n' :: I)) =
          (descMarker ++ '\n' :: (D ++ ['\n', '#'])) ++
            (['#', '#', ' ', 'I', 'M', 'A', 'G', 'E'] ++ '\n' :: I) := by
        rw [show imageMarker = '#' :: ['#', '#', ' ', 'I', 'M', 'A', 'G', 'E'] from rfl]
        simp [List.append_assoc]
      have hQlen : 0 + descMarker.length + (D.length + 2) + 1 =
          (descMarker ++ '\n' :: (D ++ ['\n', '#'])).length := by
        simp only [List.length_append, List.length_cons, List.length_nil]
        omega
      rw [hL3, hQlen, List.drop_left]
    have hscrut : findCI imageMarker
        ((descMarker ++ '\n' :: (D ++ '\n' :: (imageMarker ++ '\n' :: I))).drop
          (0 + descMarker.length + (D.length + 2) + 1)) = none := by
      rw [hdropA2, findCI_append_cons hne hb,
        show findCI imageMarker ['#', '#', ' ', 'I', 'M', 'A', 'G', 'E'] = none by decide,
        hI]
      rfl
    have hdropA3 : (descMarker ++ '\n' :: (D ++ '\n' :: (imageMarker ++ '\n' :: I))).drop
        (0 + descMarker.length + (D.length + 2)) = imageMarker ++ '\n' :: I := by
      have hL4 : descMarker ++ '\n' :: (D ++ '\n' :: (imageMarker ++ '\n' :: I)) =
          (descMarker ++ '\n' :: (D ++ ['\n'])) ++ (imageMarker ++ '\n' :: I) := by
        simp [List.append_assoc]
      have hQlen : 0 + descMarker.length + (D.length + 2) =
          (descMarker ++ '\n' :: (D ++ ['\n'])).length := by
        simp only [List.length_append, List.length_cons, List.length_nil]
        omega
      rw [hL4, hQlen, List.drop_left]
    rw [parseDesc_eq_none_pos _ 0 (D.length + 2) hfind hw hscrut (by omega)
      (by rw [hdropA3]; exact ciPrefix_self_append _ _),
      show 0 + descMarker.length + (D.length + 2) = D.length + 17 by omega,
      show (0 : Nat) + descMarker.length = descMarker.length by omega,
      slice_between D (imageMarker ++ '\n' :: I), pyStrip_nl_wrap]
  · -- the description contains a non-whitespace character
    obtain ⟨r, dW', hdW⟩ : ∃ r t, D.dropWhile pyIsSpace = r :: t := by
      cases hx : D.dropWhile pyIsSpace with
      | nil => exact absurd hx hsp
      | cons a t => exact ⟨a, t, rfl⟩
    have haveD : D = D.takeWhile pyIsSpace ++ r :: dW' := by
      conv_lhs => rw [← List.takeWhile_append_dropWhile (p := pyIsSpace) (l := D)]
      rw [hdW]
    have hw : (((descMarker ++ '\n' :: (D ++ '\n' :: (imageMarker ++ '\n' :: I))).drop
        (0 + descMarker.length)).takeWhile pyIsSpace).length =
        (D.takeWhile pyIsSpace).length + 1 := by
      rw [Nat.zero_add, List.drop_left, List.takeWhile_cons_of_pos hnl,
        takeWhile_append_of_dropWhile_ne _ hsp]
      simp only [List.length_cons]
    have hDlen : D.length = (D.takeWhile pyIsSpace).length + 1 + dW'.length := by
      conv_lhs => rw [haveD]
      simp only [List.length_append, List.length_cons]
      omega
    have hdW'none : findCI imageMarker dW' = none := by
      have hstep : D.drop ((D.takeWhile pyIsSpace).length + 1) = dW' := by
        have h1 := drop_append_cons (D.takeWhile pyIsSpace) r dW'
        rwa [← haveD] at h1
      rw [← hstep]
      exact findCI_drop_none hD _
    have hdropB : (descMarker ++ '\n' :: (D ++ '\n' :: (imageMarker ++ '\n' :: I))).drop
        (0 + descMarker.length + ((D.takeWhile pyIsSpace).length + 1) + 1) =
        dW' ++ '\n' :: (imageMarker ++ '\n' :: I) := by
      have hL5 : D ++ '\n' :: (imageMarker ++ '\n' :: I) =
          (D.takeWhile pyIsSpace ++ [r]) ++ (dW' ++ '\n' :: (imageMarker ++ '\n' :: I)) := by
        conv_lhs => rw [haveD]
        simp [List.append_assoc]
      have hL6 : descMarker ++ '\n' :: (D ++ '\n' :: (imageMarker ++ '\n' :: I)) =
          (descMarker ++ '\n' :: (D.takeWhile pyIsSpace ++ [r])) ++
            (dW' ++ '\n' :: (imageMarker ++ '\n' :: I)) := by
        rw [hL5]
        simp [List.append_assoc]
      have hQlen : 0 + descMarker.length + ((D.takeWhile pyIsSpace).length + 1) + 1 =
          (descMarker ++ '\n' :: (D.takeWhile pyIsSpace ++ [r])).length := by
        simp only [List.length_append, List.length_cons, List.length_nil]
        omega
      rw [hL6, hQlen, List.drop_left]
    have hscrut : findCI imageMarker
        ((descMarker ++ '\n' :: (D ++ '\n' :: (imageMarker ++ '\n' :: I))).drop
          (0 + descMarker.length + ((D.takeWhile pyIsSpace).length + 1) + 1)) =
        some (dW'.length + 1) := by
      rw [hdropB, findCI_append_cons hne hb, hdW'none,
        findCI_of_ciPrefix (ciPrefix_self_append imageMarker ('\n' :: I))]
      show some (0 + (dW'.length + 1)) = some (dW'.length + 1)
      rw [Nat.zero_add]
    rw [parseDesc_eq_some _ 0 ((D.takeWhile pyIsSpace).length + 1) (dW'.length + 1)
        hfind hw hscrut,
      show 0 + descMarker.length + ((D.takeWhile pyIsSpace).length + 1) + 1 +
        (dW'.length + 1) = D.length + 17 by omega,
      show (0 : Nat) + descMarker.length = descMarker.length by omega,
      slice_between D (imageMarker ++ '\n' :: I), pyStrip_nl_wrap]

/-- Core of the ordering requirement: once the first description-marker
occurrence is located at `i`, the description field is empty unless some
image-marker occurrence starts at least one character past the end of that
description marker (index `≥ i + 16`). -/
theorem parseDesc_eq_nil_of_no_image_after (s : List Char) (i : Nat)
    (hf : findCI descMarker s = some i)
    (hni : findCI imageMarker (s.drop (i + 16)) = none) :
    parseDesc s = [] := by
  have e2 : descMarker.length = 15 := rfl
  set ws := ((s.drop (i + descMarker.length)).takeWhile pyIsSpace).length with hws
  have hscrut : findCI imageMarker (s.drop (i + descMarker.length + ws + 1)) = none := by
    rw [show i + descMarker.length + ws + 1 = (i + 16) + ws by omega, ← List.drop_drop]
    exact findCI_drop_none hni ws
  rw [parseDesc_eq_of s i ws hf hws.symm, hscrut]
  have hnc : ¬ (0 < ws ∧ ciPrefix imageMarker (s.drop (i + descMarker.length + ws)) = true) := by
    rintro ⟨hpos, hpre⟩
    rw [show i + descMarker.length + ws = (i + 16) + (ws - 1) by omega,
      ← List.drop_drop] at hpre
    exact findCI_ne_none_of_ciPrefix_drop hpre hni
  rw [if_neg hnc]

/-! ## Claim theorems for the response parser -/

/-- C1: round-trip of the response parser.  For every non-empty `D` and every
`I`, neither containing an occurrence of a marker literal (in the parser's
case-insensitive sense, `findCI _ _ = none`), parsing
`"### DESCRIPTION\n" ++ D ++ "\n### IMAGE\n" ++ I` returns
`(D.strip(), I.strip())`. -/
theorem C1_parse_roundtrip (D I : List Char) (_hD0 : D ≠ [])
    (_hD1 : findCI descMarker D = none) (hD2 : findCI imageMarker D = none)
    (_hI1 : findCI descMarker I = none) (hI2 : findCI imageMarker I = none) :
    parse_ollama_response ("### DESCRIPTION\n".data ++ D ++ ("\n### IMAGE\n".data ++ I)) =
      (pyStrip D, pyStrip I) := by
  have hsplit : "### DESCRIPTION\n".data ++ D ++ ("\n### IMAGE\n".data ++ I) =
      descMarker ++ '\n' :: (D ++ '\n' :: (imageMarker ++ '\n' :: I)) := by
    rw [show "### DESCRIPTION\n".data = descMarker ++ ['\n'] from rfl,
      show "\n### IMAGE\n".data = '\n' :: (imageMarker ++ ['\n']) from rfl]
    simp [List.append_assoc]
  rw [hsplit]
  unfold parse_ollama_response
  rw [parseDesc_roundtrip D I hD2 hI2, parseImage_roundtrip D I hD2]

/-- Witness for C1 at the concrete description and image directive of the
spec's scenario. -/
theorem C1_parse_roundtrip_witness :
    parse_ollama_response ("### DESCRIPTION\n".data ++ "A moody vampire".data ++
      ("\n### IMAGE\n".data ++ "misty castle".data)) =
      (pyStrip "A moody vampire".data, pyStrip "misty castle".data) :=
  C1_parse_roundtrip "A moody vampire".data "misty castle".data
    (by decide) (by decide) (by decide) (by decide) (by decide)

/-- C2: the parser is a total function into pairs of strings (it can never
raise), and an absent marker degrades the corresponding field to the empty
string instead of failing. -/
theorem C2_parser_total_degraded (s : List Char) :
    parse_ollama_response s = (parseDesc s, parseImage s) ∧
    (findCI descMarker s = none → parseDesc s = []) ∧
    (findCI imageMarker s = none → parseImage s = []) := by
  refine ⟨rfl, fun h => ?_, fun h => ?_⟩
  · simp [parseDesc, h]
  · simp [parseImage, h]

/-- Witness for C2 on an input containing neither marker. -/
theorem C2_parser_total_degraded_witness :
    parseDesc "hello world".data = [] ∧ parseImage "hello world".data = [] :=
  ⟨(C2_parser_total_degraded "hello world".data).2.1 (by decide),
   (C2_parser_total_degraded "hello world".data).2.2 (by decide)⟩

/-- C3 fails as stated: with the image marker before the description marker
the description field is empty, but the image field is still extracted, so
the two fields are not both empty. -/
theorem C3_counterexample :
    parse_ollama_response "### IMAGE misty castle### DESCRIPTION x".data =
      ([], "misty castle### DESCRIPTION x".data) ∧
    parse_ollama_response "### IMAGE misty castle### DESCRIPTION x".data ≠ ([], []) := by
  constructor
  · decide
  · decide

/-- C3 (amended): the in-order requirement governs only the description
field.  If the description marker is absent, or no image-marker occurrence
starts at least one character past the end of the first description-marker
occurrence, the description field is empty; the image field is extracted
from the first image-marker occurrence independently of the description
marker, as witnessed by the counterexample. -/
theorem C3_order_required_for_description (s : List Char) :
    (findCI descMarker s = none → parseDesc s = []) ∧
    (∀ i, findCI descMarker s = some i →
      findCI imageMarker (s.drop (i + 16)) = none → parseDesc s = []) := by
  refine ⟨fun h => ?_, fun i hf hni => ?_⟩
  · simp [parseDesc, h]
  · exact parseDesc_eq_nil_of_no_image_after s i hf hni

/-- Witness for the amended C3: the description marker is present with text
after it, but no image marker follows it, so the description is empty. -/
theorem C3_order_required_for_description_witness :
    parseDesc "### DESCRIPTION only text".data = [] :=
  (C3_order_required_for_description "### DESCRIPTION only text".data).2 0
    (by decide) (by decide)

/-- C10: extracting a non-empty description requires the image marker.  If
the input contains the description marker (at any position `i`) but no image
marker at all, both fields are empty. -/
theorem C10_no_image_no_description (s : List Char) (i : Nat)
    (hf : findCI descMarker s = some i)
    (hni : findCI imageMarker s = none) :
    parse_ollama_response s = ([], []) := by
  unfold parse_ollama_response
  rw [parseDesc_eq_nil_of_no_image_after s i hf (findCI_drop_none hni (i + 16))]
  rw [show parseImage s = [] by simp [parseImage, hni]]

/-- Witness for C10: description marker and text present, no image marker. -/
theorem C10_no_image_no_description_witness :
    parse_ollama_response "### description a gloomy ghost".data = ([], []) :=
  C10_no_image_no_description "### description a gloomy ghost".data 0
    (by decide) (by decide)

/-! ## Claim theorems for the username generator -/

theorem find?_eq_of_take_all {α : Type} (l : List α) (p : α → Bool) :
    ∀ (i : Nat) (h : i < l.length),
      ((l.take i).all (fun a => !(p a))) = true → p (l.get ⟨i, h⟩) = true →
      l.find? p = some (l.get ⟨i, h⟩) := by
  induction l with
  | nil => intro i h; exact absurd h (by simp)
  | cons a t ih =>
    intro i h hprev hi
    cases i with
    | zero => exact List.find?_cons_of_pos _ hi
    | succ i =>
      rw [List.take_succ_cons, List.all_cons, Bool.and_eq_true] at hprev
      have ha : ¬ p a = true := by simpa using hprev.1
      rw [List.find?_cons_of_neg _ ha]
      exact ih i (by simpa using h) hprev.2 hi

theorem isPrefixOf_map (f : Char → Char) :
    ∀ {pat s : List Char}, pat.isPrefixOf s = true →
      (pat.map f).isPrefixOf (s.map f) = true := by
  intro pat
  induction pat with
  | nil => intro s _; cases s <;> rfl
  | cons a as ih =>
    intro s h
    cases s with
    | nil => simp [List.isPrefixOf] at h
    | cons b bs =>
      simp only [List.isPrefixOf, Bool.and_eq_true, beq_iff_eq] at h
      simp only [List.map_cons, List.isPrefixOf, Bool.and_eq_true, beq_iff_eq]
      exact ⟨by rw [h.1], ih h.2⟩

theorem strInfix_lower {pat s : List Char} (h : strInfix pat s = true) :
    strInfix (lowerStr pat) (lowerStr s) = true := by
  induction s with
  | nil =>
    cases pat with
    | nil => rfl
    | cons a as => simp [strInfix, List.isPrefixOf] at h
  | cons c t ih =>
    simp only [strInfix, Bool.or_eq_true] at h
    rw [show lowerStr (c :: t) = Char.toLower c :: lowerStr t from rfl]
    simp only [strInfix, Bool.or_eq_true]
    rcases h with h | h
    · exact Or.inl (isPrefixOf_map Char.toLower h)
    · exact Or.inr (ih h)

/-- C4: for every description and every outcome of the random choices, the
username is the first of the three candidates whose length lies in `[12, 16]`
and otherwise the 16-character truncation of `adj ++ noun`; consequently the
result has length between 12 and 16, or is a truncation of `adj ++ noun` of
length at most 16. -/
theorem C4_username_shape (description : List Char) (ai ni n : Nat) (_hn : n ≤ 99) :
    generate_funny_username description ai ni n =
      ((username_options (chosenAdj description ai) (chosenNoun description ni) n).find?
        lenOk).getD ((chosenAdj description ai ++ chosenNoun description ni).take 16) ∧
    ((12 ≤ (generate_funny_username description ai ni n).length ∧
      (generate_funny_username description ai ni n).length ≤ 16) ∨
     (generate_funny_username description ai ni n =
        (chosenAdj description ai ++ chosenNoun description ni).take 16 ∧
      (generate_funny_username description ai ni n).length ≤ 16)) := by
  have hEq : generate_funny_username description ai ni n =
      ((username_options (chosenAdj description ai) (chosenNoun description ni) n).find?
        lenOk).getD ((chosenAdj description ai ++ chosenNoun description ni).take 16) := by
    simp only [generate_funny_username]
    cases (username_options (chosenAdj description ai) (chosenNoun description ni) n).find?
        lenOk with
    | some o => rfl
    | none => rfl
  refine ⟨hEq, ?_⟩
  rw [hEq]
  cases hfind : (username_options (chosenAdj description ai) (chosenNoun description ni) n).find?
      lenOk with
  | some o =>
    have hok := List.find?_some hfind
    simp only [lenOk, Bool.and_eq_true, decide_eq_true_eq] at hok
    exact Or.inl (by simpa using hok)
  | none =>
    refine Or.inr ⟨by simp, ?_⟩
    simp only [Option.getD_none, List.length_take]
    exact Nat.min_le_left _ _

/-- Witness for C4 on the fallback vocabulary (`adj ++ noun` is `weirdbot`,
all three candidates are too short, so the truncation branch is taken). -/
theorem C4_username_shape_witness :
    (12 ≤ (generate_funny_username "".data 0 0 0).length ∧
      (generate_funny_username "".data 0 0 0).length ≤ 16) ∨
    (generate_funny_username "".data 0 0 0 =
        (chosenAdj "".data 0 ++ chosenNoun "".data 0).take 16 ∧
      (generate_funny_username "".data 0 0 0).length ≤ 16) :=
  (C4_username_shape "".data 0 0 0 (by decide)).2

/-- C5: buckets are tested in the fixed dict order and the first match wins;
matching is by case-insensitive substring (a description containing `GOTH`
matches the darkwave bucket, tested last, and selects it when no earlier
bucket matches, e.g. for the description `GOTH` itself); the description
`A moody vampire` selects darkwave through the `vampire` keyword; with no
match anywhere the fallback vocabulary is used. -/
theorem C5_genre_buckets :
    (∀ (dl : List Char) (i : Nat) (h : i < genre_vocab.length),
      ((genre_vocab.take i).all (fun g => !(matchesBucket g dl))) = true →
      matchesBucket (genre_vocab.get ⟨i, h⟩) dl = true →
      pickBucket dl = some (genre_vocab.get ⟨i, h⟩)) ∧
    (∀ d : List Char, strInfix "GOTH".data d = true →
      matchesBucket (genre_vocab.get ⟨5, by decide⟩) (lowerStr d) = true) ∧
    chooseVocab "GOTH".data = (["dark".data], ["demon".data, "fang".data]) ∧
    chooseVocab "A moody vampire".data = (["dark".data], ["demon".data, "fang".data]) ∧
    (∀ d : List Char, genre_vocab.all (fun g => !(matchesBucket g (lowerStr d))) = true →
      chooseVocab d = (fallback_adjectives, fallback_nouns)) := by
  refine ⟨?_, ?_, by decide, by decide, ?_⟩
  · intro dl i h hprev hi
    exact find?_eq_of_take_all genre_vocab _ i h hprev hi
  · intro d hd
    have h2 := strInfix_lower hd
    rw [show lowerStr "GOTH".data = "goth".data by decide] at h2
    rw [show genre_vocab.get ⟨5, by decide⟩ =
      { keywords := ["goth".data, "vampire".data], adjectives := ["dark".data],
        nouns := ["demon".data, "fang".data] } from rfl]
    simp [matchesBucket, h2]
  · intro d hall
    have hnone : genre_vocab.find? (fun g => matchesBucket g (lowerStr d)) = none := by
      rw [List.find?_eq_none]
      intro x hx
      have := List.all_eq_true.mp hall x hx
      simp only [Bool.not_eq_true'] at this
      simp [this]
    simp [chooseVocab, pickBucket, hnone]

/-- Witness for C5's first-match rule: `gloomy goth` matches both the emo
bucket (index 1) and the darkwave bucket (index 5), and emo wins. -/
theorem C5_genre_buckets_witness :
    pickBucket (lowerStr "gloomy goth".data) = some (genre_vocab.get ⟨1, by decide⟩) :=
  C5_genre_buckets.1 (lowerStr "gloomy goth".data) 1 (by decide) (by decide) (by decide)

/-! ## Claim theorems for the track normalizers -/

theorem recentGo_eq (items : List RawPlayItem) :
    ∀ (seen : List (List Char)) (count : Nat), count ≤ 9 →
      recentGo items seen count =
        ((firstOccs items seen).take (10 - count)).map mkRecentInfo := by
  induction items with
  | nil => intro seen count _; simp [recentGo, firstOccs]
  | cons x rest ih =>
    intro seen count hc
    by_cases hmem : x.track.id ∈ seen
    · simp only [recentGo, firstOccs, if_pos hmem]
      exact ih seen count hc
    · by_cases hbreak : count + 1 ≥ 10
      · have hc9 : count = 9 := by omega
        subst hc9
        simp only [recentGo, firstOccs, if_neg hmem, if_pos hbreak]
        rfl
      · simp only [recentGo, firstOccs, if_neg hmem, if_neg hbreak]
        rw [show 10 - count = (10 - (count + 1)) + 1 by omega, List.take_succ_cons,
          List.map_cons, ih (x.track.id :: seen) (count + 1) (by omega)]

theorem firstOccs_sublist (items : List RawPlayItem) :
    ∀ seen, List.Sublist (firstOccs items seen) items := by
  induction items with
  | nil => intro _; exact List.Sublist.refl []
  | cons x rest ih =>
    intro seen
    simp only [firstOccs]
    by_cases h : x.track.id ∈ seen
    · rw [if_pos h]
      exact (ih seen).cons x
    · rw [if_neg h]
      exact (ih (x.track.id :: seen)).cons₂ x

theorem firstOccs_ids_nodup (items : List RawPlayItem) :
    ∀ seen, ((firstOccs items seen).map (fun x => x.track.id)).Nodup ∧
      ∀ x ∈ firstOccs items seen, x.track.id ∉ seen := by
  induction items with
  | nil => intro seen; exact ⟨List.nodup_nil, by simp [firstOccs]⟩
  | cons y rest ih =>
    intro seen
    simp only [firstOccs]
    by_cases h : y.track.id ∈ seen
    · rw [if_pos h]
      exact ih seen
    · rw [if_neg h]
      obtain ⟨ihn, ihs⟩ := ih (y.track.id :: seen)
      refine ⟨?_, ?_⟩
      · rw [List.map_cons, List.nodup_cons]
        refine ⟨?_, ihn⟩
        intro hmem
        obtain ⟨z, hz, hzid⟩ := List.mem_map.mp hmem
        exact (ihs z hz) (hzid ▸ List.mem_cons_self _ _)
      · intro z hz
        rcases List.mem_cons.mp hz with rfl | hz'
        · exact h
        · intro hzs
          exact (ihs z hz') (List.mem_cons_of_mem _ hzs)

/-- C6: the recently-played normalizer equals "keep the first occurrence of
each track id, stop at 10 records, attach the timestamp"; consequently its
output has pairwise-distinct ids, length at most 10 and at most the input
length, is a sublist of the normalized input (supplied order preserved), and
every record carries a `played_at` timestamp. -/
theorem C6_recent_normalizer (items : List RawPlayItem) :
    get_recent_tracks_data items = ((firstOccs items []).take 10).map mkRecentInfo ∧
    ((get_recent_tracks_data items).map (fun t => t.id)).Nodup ∧
    (get_recent_tracks_data items).length ≤ 10 ∧
    (get_recent_tracks_data items).length ≤ items.length ∧
    List.Sublist (get_recent_tracks_data items) (items.map mkRecentInfo) ∧
    (get_recent_tracks_data items).all (fun t => t.played_at.isSome) = true := by
  have hchar : get_recent_tracks_data items =
      ((firstOccs items []).take 10).map mkRecentInfo :=
    recentGo_eq items [] 0 (by omega)
  refine ⟨hchar, ?_, ?_, ?_, ?_, ?_⟩
  · rw [hchar]
    have hmm : (((firstOccs items []).take 10).map mkRecentInfo).map (fun t => t.id) =
        ((firstOccs items []).take 10).map (fun x => x.track.id) := by
      rw [List.map_map]
      rfl
    rw [hmm]
    exact List.Nodup.sublist (List.Sublist.map _ (List.take_sublist 10 _))
      (firstOccs_ids_nodup items []).1
  · rw [hchar, List.length_map]
    exact List.length_take_le 10 _
  · rw [hchar, List.length_map]
    exact le_trans (List.Sublist.length_le (List.take_sublist 10 _))
      (firstOccs_sublist items [] |>.length_le)
  · rw [hchar]
    exact List.Sublist.trans (List.Sublist.map mkRecentInfo (List.take_sublist 10 _))
      (List.Sublist.map mkRecentInfo (firstOccs_sublist items []))
  · rw [hchar, List.all_eq_true]
    intro t ht
    obtain ⟨x, _, rfl⟩ := List.mem_map.mp ht
    rfl

/-- C7 fails as stated: the loop of `get_top_tracks_data` performs no local
truncation (the bound of 10 lives in the `limit=10` request parameter), so an
input of 11 entries yields 11 records, not `min 10 11 = 10`. -/
theorem C7_counterexample :
    (get_top_tracks_data (List.replicate 11 sampleRawTrack)).length ≠
      min 10 (List.replicate 11 sampleRawTrack).length := by
  simp [get_top_tracks_data]

/-- C7 (amended): the top-tracks normalizer emits exactly one record per
input entry, in order, with no local truncation — the output length always
equals the input length; the claimed `min 10 · ` bound therefore holds
exactly when the provider honours the `limit=10` request parameter and
returns at most 10 entries. -/
theorem C7_top_normalizer (items : List RawTrack) :
    get_top_tracks_data items = items.map mkTopInfo ∧
    (get_top_tracks_data items).length = items.length ∧
    (items.length ≤ 10 → (get_top_tracks_data items).length = min 10 items.length) := by
  refine ⟨rfl, by simp [get_top_tracks_data], fun h => ?_⟩
  simp only [get_top_tracks_data, List.length_map]
  omega

/-- Witness for the amended C7 with a single input entry. -/
theorem C7_top_normalizer_witness :
    (get_top_tracks_data [sampleRawTrack]).length = min 10 [sampleRawTrack].length :=
  (C7_top_normalizer [sampleRawTrack]).2.2 (by decide)

/-! ## Claim theorems for the prompt builder and image-prompt formatter -/

theorem replaceAllGo_fuel (pat new : List Char) (hne : pat ≠ []) :
    ∀ (f₁ : Nat) (s : List Char) (f₂ : Nat), s.length ≤ f₁ → s.length ≤ f₂ →
      replaceAllGo pat new f₁ s = replaceAllGo pat new f₂ s := by
  intro f₁
  induction f₁ with
  | zero =>
    intro s f₂ h1 _
    have hs : s = [] := List.eq_nil_of_length_eq_zero (Nat.le_zero.mp h1)
    subst hs
    cases f₂ <;> rfl
  | succ f ih =>
    intro s f₂ h1 h2
    cases s with
    | nil => cases f₂ <;> rfl
    | cons c rest =>
      cases f₂ with
      | zero => simp at h2
      | succ f₂' =>
        have hpatpos : 1 ≤ pat.length := by
          cases pat with
          | nil => exact absurd rfl hne
          | cons p ps => simp
        simp only [replaceAllGo]
        by_cases hp : pat.isPrefixOf (c :: rest) = true
        · rw [if_pos hp, if_pos hp]
          congr 1
          apply ih
          · simp only [List.length_drop, List.length_cons] at *
            omega
          · simp only [List.length_drop, List.length_cons] at *
            omega
        · rw [if_neg hp, if_neg hp]
          congr 1
          apply ih
          · simp only [List.length_cons] at h1
            omega
          · simp only [List.length_cons] at h2
            omega

theorem replaceAllGo_untouched (pat new : List Char) :
    ∀ (s : List Char) (fuel : Nat), strInfix pat s = false →
      replaceAllGo pat new fuel s = s := by
  intro s
  induction s with
  | nil => intro fuel _; cases fuel <;> rfl
  | cons c rest ih =>
    intro fuel h
    have hun : (pat.isPrefixOf (c :: rest) || strInfix pat rest) = false := h
    cases hpf : pat.isPrefixOf (c :: rest) with
    | true => rw [hpf] at hun; simp at hun
    | false =>
      rw [hpf, Bool.false_or] at hun
      cases fuel with
      | zero => rfl
      | succ f =>
        simp only [replaceAllGo]
        rw [if_neg (by simp [hpf]), ih f hun]

theorem replaceAllGo_cons_pos (pat new : List Char) (f : Nat) (c : Char)
    (rest : List Char) (h : pat.isPrefixOf (c :: rest) = true) :
    replaceAllGo pat new (f + 1) (c :: rest) =
      new ++ replaceAllGo pat new f ((c :: rest).drop pat.length) := by
  simp only [replaceAllGo]
  rw [if_pos h]

theorem replaceAllGo_single (pat new : List Char) (hne : pat ≠ []) :
    ∀ (a b : List Char) (fuel : Nat),
      (∀ i, i < a.length → pat.isPrefixOf ((a.drop i) ++ pat ++ b) = false) →
      a.length + pat.length + b.length ≤ fuel →
      replaceAllGo pat new fuel (a ++ pat ++ b) =
        a ++ new ++ replaceAllGo pat new (fuel - (a.length + pat.length)) b := by
  intro a
  induction a with
  | nil =>
    intro b fuel _ hfuel
    have hpatpos : 1 ≤ pat.length := by
      cases pat with
      | nil => exact absurd rfl hne
      | cons p ps => simp
    cases fuel with
    | zero => exfalso; simp only [List.length_nil] at hfuel; omega
    | succ f =>
      have hpre : pat.isPrefixOf (pat ++ b) = true :=
        List.isPrefixOf_iff_prefix.mpr (List.prefix_append pat b)
      have hstep : replaceAllGo pat new (f + 1) (pat ++ b) =
          new ++ replaceAllGo pat new f ((pat ++ b).drop pat.length) := by
        cases hp : pat with
        | nil => exact absurd hp hne
        | cons p ps =>
          rw [hp] at hpre
          exact replaceAllGo_cons_pos (p :: ps) new f p (ps ++ b) hpre
      show replaceAllGo pat new (f + 1) (pat ++ b) =
        ([] : List Char) ++ new ++
          replaceAllGo pat new (f + 1 - (([] : List Char).length + pat.length)) b
      rw [hstep, List.drop_left]
      rw [replaceAllGo_fuel pat new hne f b (f + 1 - (([] : List Char).length + pat.length))
        (by simp only [List.length_nil] at hfuel ⊢; omega)
        (by simp only [List.length_nil] at hfuel ⊢; omega)]
      simp
  | cons c a' ih =>
    intro b fuel hocc hfuel
    cases fuel with
    | zero =>
      exfalso
      simp only [List.length_cons] at hfuel
      omega
    | succ f =>
      have h0 : pat.isPrefixOf (c :: (a' ++ pat ++ b)) = false := hocc 0 (by simp)
      have hshow : (c :: a') ++ pat ++ b = c :: (a' ++ pat ++ b) := by simp
      rw [hshow]
      simp only [replaceAllGo]
      rw [if_neg (by rw [h0]; simp)]
      rw [ih b f (fun i hi => hocc (i + 1) (by simp only [List.length_cons]; omega))
        (by simp only [List.length_cons] at hfuel; omega)]
      rw [show f + 1 - ((c :: a').length + pat.length) = f - (a'.length + pat.length) by
        simp only [List.length_cons]; omega]
      rfl

theorem replaceAll_untouched (pat new s : List Char) (h : strInfix pat s = false) :
    replaceAll pat new s = s :=
  replaceAllGo_untouched pat new s s.length h

theorem replaceAll_single (pat new a b : List Char) (hne : pat ≠ [])
    (hocc : ∀ i, i < a.length → pat.isPrefixOf ((a.drop i) ++ pat ++ b) = false)
    (hb : strInfix pat b = false) :
    replaceAll pat new (a ++ pat ++ b) = a ++ new ++ b := by
  unfold replaceAll
  rw [replaceAllGo_single pat new hne a b _ hocc
    (by simp only [List.length_append]; omega)]
  rw [replaceAllGo_untouched pat new b _ hb]

/-- C8 fails as stated: `str.replace` substitutes every occurrence of a
placeholder, not exactly one.  On a template containing `{{TOP_TRACKS}}`
twice, both occurrences are replaced by the rendered list; under the claim
one literal occurrence would have had to survive. -/
theorem C8_counterexample :
    build_prompt "\x7b\x7bTOP_TRACKS\x7d\x7d\x7b\x7bTOP_TRACKS\x7d\x7d".data
      [sampleTrackAX] [] = "- 'A' by X- 'A' by X".data ∧
    build_prompt "\x7b\x7bTOP_TRACKS\x7d\x7d\x7b\x7bTOP_TRACKS\x7d\x7d".data
      [sampleTrackAX] [] ≠ "- 'A' by X\x7b\x7bTOP_TRACKS\x7d\x7d".data := by
  constructor
  · decide
  · decide

/-- C8 (amended): `build_prompt` renders each list as newline-joined
`- '<name>' by <artists>` lines and substitutes every occurrence of each
placeholder (Python `str.replace` semantics): a template without a
placeholder is left unchanged by that substitution (silent no-op), a
template containing each placeholder exactly once has each substituted
exactly once, and the spec's scenario holds. -/
theorem C8_build_prompt :
    build_prompt "TOP:\x7b\x7bTOP_TRACKS\x7d\x7d RECENT:\x7b\x7bRECENT_TRACKS\x7d\x7d".data
      [sampleTrackAX] [] = "TOP:- 'A' by X RECENT:".data ∧
    build_prompt "\x7b\x7bTOP_TRACKS\x7d\x7d".data [sampleTrackAX, sampleTrackAX] [] =
      "- 'A' by X\n- 'A' by X".data ∧
    (∀ (template : List Char) (top recent : List TrackInfo),
      strInfix topToken template = false → strInfix recentToken template = false →
      build_prompt template top recent = template) ∧
    (∀ (a b c : List Char) (top recent : List TrackInfo),
      (∀ i, i < a.length →
        topToken.isPrefixOf ((a.drop i) ++ topToken ++ (b ++ recentToken ++ c)) = false) →
      strInfix topToken (b ++ recentToken ++ c) = false →
      (∀ i, i < (a ++ joinSep ['\n'] (top.map renderTrackLine) ++ b).length →
        recentToken.isPrefixOf
          (((a ++ joinSep ['\n'] (top.map renderTrackLine) ++ b).drop i) ++
            recentToken ++ c) = false) →
      strInfix recentToken c = false →
      build_prompt (a ++ topToken ++ (b ++ recentToken ++ c)) top recent =
        a ++ joinSep ['\n'] (top.map renderTrackLine) ++ b ++
          joinSep ['\n'] (recent.map renderTrackLine) ++ c) := by
  refine ⟨by decide, by decide, ?_, ?_⟩
  · intro template top recent h1 h2
    show replaceAll recentToken (joinSep ['\n'] (recent.map renderTrackLine))
      (replaceAll topToken (joinSep ['\n'] (top.map renderTrackLine)) template) = template
    rw [replaceAll_untouched _ _ _ h1, replaceAll_untouched _ _ _ h2]
  · intro a b c top recent h1 h2 h3 h4
    show replaceAll recentToken (joinSep ['\n'] (recent.map renderTrackLine))
      (replaceAll topToken (joinSep ['\n'] (top.map renderTrackLine))
        (a ++ topToken ++ (b ++ recentToken ++ c))) = _
    rw [replaceAll_single topToken _ a (b ++ recentToken ++ c) (by decide) h1 h2]
    rw [show a ++ joinSep ['\n'] (top.map renderTrackLine) ++ (b ++ recentToken ++ c) =
      (a ++ joinSep ['\n'] (top.map renderTrackLine) ++ b) ++ recentToken ++ c by
        simp [List.append_assoc]]
    rw [replaceAll_single recentToken _ _ c (by decide) h3 h4]

/-- Witness for the amended C8: a template with no placeholders is returned
unchanged. -/
theorem C8_build_prompt_witness :
    build_prompt "no placeholders here".data [sampleTrackAX] [] =
      "no placeholders here".data :=
  C8_build_prompt.2.2.1 "no placeholders here".data [sampleTrackAX] []
    (by decide) (by decide)

/-- C9: `format_image_prompt` is pure concatenation of the constant style
preamble with its input, with no validation; on the empty directive it
returns the preamble exactly. -/
theorem C9_format_image_prompt (s : List Char) :
    format_image_prompt s = stylePreamble ++ s ∧
    format_image_prompt [] = stylePreamble := by
  refine ⟨rfl, ?_⟩
  show stylePreamble ++ [] = stylePreamble
  exact List.append_nil stylePreamble
